import Mathlib

/-!
Verification of the concurrent batch-upload engine of `gcs-backup` (`main.go`).

The definitions below are a shallow embedding of `copyFiles`, `checkFileConf`,
`parseFileConf` and `main`: the partition of the manifest into index ranges,
the per-file worker behaviour (counters, log lines, resource release), the
per-file timeout context, the lock-protected counter increments, and the
startup control flow.
-/

/-! ## Partitioner: `copyFiles` lines 139-165 -/

/-- `var processFilesForGoRoutine int = 20` — the fixed batch size. -/
def processFilesForGoRoutine : Nat := 20

/-- `math.Round(float64(M) / float64(B))` for a natural manifest length `M` and
positive batch size `B`: Go's `math.Round` rounds half away from zero, which for
non-negative arguments is `⌊M/B + 1/2⌋ = (2M + B) / (2B)` in exact arithmetic.
(The float64 computation agrees with this for every realistic file count: the
quotient differs from a half-integer boundary by at least `1/B` whenever it is
not exactly on it, far above the rounding error of the division.) -/
def roundDiv (M B : Nat) : Nat := (2 * M + B) / (2 * B)

/-- `goRoutines := int(math.Round(float64(totalFilesToCopy) / 20)); if goRoutines == 0 { goRoutines = 1 }`. -/
def goRoutines (M : Nat) : Nat :=
  if roundDiv M processFilesForGoRoutine = 0 then 1
  else roundDiv M processFilesForGoRoutine

/-- One iteration of the `start`/`end` assignment in the dispatch loop of
`copyFiles`: `W` is `goRoutines`, `M` is `len(filesToCopy)`, `i` the loop index
and `prevEnd` the value of `end` left by the previous iteration. -/
def partitionStep (W M : Nat) (i : Nat) (prevEnd : Int) : Int × Int :=
  if W = 1 then (0, (M : Int) - 1)
  else if i = 0 then (0, (processFilesForGoRoutine : Int) - 1)
  else if i = W - 1 then (prevEnd + 1, (M : Int) - 1)
  else (prevEnd + 1, prevEnd + (processFilesForGoRoutine : Int))

/-- The dispatch loop of `copyFiles`, threading the mutable `end` variable:
`rem` iterations remain, the current loop index is `i`. -/
def buildUnits (W M : Nat) : Nat → Nat → Int → List (Int × Int)
  | 0, _, _ => []
  | rem + 1, i, prevEnd =>
    let u := partitionStep W M i prevEnd
    u :: buildUnits W M rem (i + 1) u.2

/-- The full list of `(start, end)` ranges handed to the `goRoutines` workers.
The initial `0` is the zero value of `var start, end int`; it is never read
(iteration `i = 0` always takes a branch that ignores `prevEnd`). -/
def workUnits (M : Nat) : List (Int × Int) :=
  buildUnits (goRoutines M) M (goRoutines M) 0 0

/-- The indices visited by `for n := start; n <= end; n++`: the list
`[s, s+1, ..., e]` (empty when `e < s`). -/
def rangeList (s e : Int) : List Int :=
  (List.range (e + 1 - s).toNat).map (fun k : Nat => s + (k : Int))

/-- Concatenation of the index ranges of a list of work units: exactly the
manifest indices `n` at which some worker evaluates `filesToCopy[n]`. -/
def covered : List (Int × Int) → List Int
  | [] => []
  | u :: us => rangeList u.1 u.2 ++ covered us

/-! ## Upload worker: `copyFiles` lines 167-225

The fate of one file is decided by the environment: the re-check `os.Stat`
(missing), `os.Open` (open failure), `io.Copy` (stream failure), `wc.Close`
(finalize failure), or none of these (success). -/

inductive FileFate where
  | missing
  | openFail
  | copyFail
  | closeFail
  | ok
deriving DecidableEq

/-- Observable effect of processing one file path in the worker loop:
counter deltas, resource events, stdout lines, and whether the worker's loop
is aborted. -/
structure FileEffect where
  dOK : Nat
  dError : Nat
  opened : Nat
  closedFile : Nat
  cancelled : Nat
  stdoutLines : Nat
  aborted : Bool
deriving DecidableEq, Repr

/-- One iteration of the worker loop, per fate, read off the source:

* `missing`: `fmt.Printf("[WARNING] ...")` then `continue` — one stdout line,
  no open, no counter.
* `openFail`: `fmt.Errorf("os.Open: %v", err)` — the returned error is
  DISCARDED, nothing is printed — then `continue`; no handle was obtained.
* `copyFail`: the file was opened and a timeout context created; on `io.Copy`
  error the code calls `fmt.Errorf` (discarded, no output), increments
  `totalFilesError` under the mutex, calls `cancel()` and `f.Close()`, then
  `continue`.
* `closeFail`: identical to `copyFail` but triggered by `wc.Close()`.
* `ok`: `fmt.Printf("[OK] ...")` (one line), increments `totalFilesOK` under
  the mutex, `cancel()` and `f.Close()`. -/
def processOne : FileFate → FileEffect
  | .missing => ⟨0, 0, 0, 0, 0, 1, false⟩
  | .openFail => ⟨0, 0, 0, 0, 0, 0, false⟩
  | .copyFail => ⟨0, 1, 1, 1, 1, 0, false⟩
  | .closeFail => ⟨0, 1, 1, 1, 1, 0, false⟩
  | .ok => ⟨1, 0, 1, 1, 1, 1, false⟩

/-- A file counts toward the final `totalFilesOK + totalFilesError` exactly
when it was still present and openable at upload time. -/
def openable : FileFate → Bool
  | .missing => false
  | .openFail => false
  | _ => true

/-- Counter update contributed by index `n` when the environment assigns
fates `σ`: the `(totalFilesOK, totalFilesError)` deltas of `processOne`. -/
def stepCounters (σ : Nat → FileFate) (st : Nat × Nat) (n : Nat) : Nat × Nat :=
  (st.1 + (processOne (σ n)).dOK, st.2 + (processOne (σ n)).dError)

/-- The shared counters after the files listed in `L` (in some interleaved
order across workers) have been processed, starting from `(0, 0)`. -/
def runCounters (σ : Nat → FileFate) (L : List Nat) : Nat × Nat :=
  L.foldl (stepCounters σ) (0, 0)

/-- Success/error tallies a single worker accumulates over a list of fates. -/
def workerTally (fs : List FileFate) : Nat × Nat :=
  ((fs.map (fun f => (processOne f).dOK)).sum,
   (fs.map (fun f => (processOne f).dError)).sum)

/-- The final report of `copyFiles`: `totalFilesToCopy`, then the counters
after every index of every work unit has been processed. -/
def finalReport (σ : Nat → FileFate) (M : Nat) : Nat × Nat × Nat :=
  (M, runCounters σ ((covered (workUnits M)).map Int.toNat))

/-! ## Timeout context: `copyFiles` line 186

`ctx, cancel := context.WithTimeout(ctx, time.Second*50)` — the parent is the
`context.Background()` created at the start of `copyFiles`, and Go's
`WithTimeout(parent, d)` sets the deadline to `time.Now().Add(d)` evaluated at
the moment of the call, intersected with the parent's deadline if any. -/

structure GoContext where
  deadline : Option Nat
deriving DecidableEq, Repr

/-- `context.Background()`: no deadline. -/
def contextBackground : GoContext := ⟨none⟩

/-- `context.WithTimeout(parent, d)` called at wall-clock time `now`
(in seconds). -/
def withTimeout (parent : GoContext) (now d : Nat) : GoContext :=
  ⟨some (match parent.deadline with
    | none => now + d
    | some pd => min pd (now + d))⟩

/-- Deadline of the per-file context created on line 186: the call happens
when that file's transfer begins (`fileStart`), and the parent chain reaches
`context.Background()`, which carries no deadline; `runStart` is the time
`copyFiles` began. -/
def fileTransferDeadline (runStart fileStart : Nat) : Option Nat :=
  (withTimeout contextBackground fileStart 50).deadline

/-! ## Shared counters under the mutex: `copyFiles` lines 194-221

Each `mutex.Lock(); counter++; mutex.Unlock()` is an atomic read-modify-write,
so a concurrent execution of `W` workers is an interleaving — a permutation
preserving each worker's order — of all the individual increment events. -/

inductive CounterEv where
  | incOK
  | incErr
deriving DecidableEq

/-- Effect of one lock-protected increment on `(totalFilesOK, totalFilesError)`. -/
def applyEv (st : Nat × Nat) (e : CounterEv) : Nat × Nat :=
  match e with
  | .incOK => (st.1 + 1, st.2)
  | .incErr => (st.1, st.2 + 1)

/-- Final counter pair after a full interleaving `L` of increment events. -/
def foldEvents (L : List CounterEv) : Nat × Nat :=
  L.foldl applyEv (0, 0)

/-- The success/failure tally one worker produced locally: how many of each
increment it performed. -/
def localTally (w : List CounterEv) : Nat × Nat :=
  (w.count .incOK, w.count .incErr)

/-! ## Startup: `main` lines 241-250 and `usage` lines 39-42 -/

/-- Default of `flag.StringVar(&fileConf, "config", "conf.yaml", ...)`. -/
def defaultConfigPath : String := "conf.yaml"

/-- The value the `-config` flag takes after `flag.Parse()` on the argument
vector without the program name: the explicit value if given, otherwise the
default. -/
def parseConfigFlag : List String → String
  | [] => defaultConfigPath
  | a :: rest =>
    if a = "-config" then
      match rest with
      | v :: _ => v
      | [] => defaultConfigPath
    else parseConfigFlag rest

/-- What `main` has done by the time configuration handling is reached. -/
structure StartupTrace where
  printedUsage : Bool
  exitCode : Option Nat
  configPathStat : Option String
deriving DecidableEq, Repr

/-- `main`: `if len(os.Args) == 1 { usage() }` — `usage` prints the usage
line and calls `os.Exit(1)`, so flag registration, `flag.Parse` and
`checkFileConf` are never reached; otherwise the parsed `-config` value is
the path `checkFileConf` will `os.Stat`. -/
def mainStartup (args : List String) : StartupTrace :=
  if args.length = 1 then ⟨true, some 1, none⟩
  else ⟨false, none, some (parseConfigFlag args.tail)⟩

/-! ## Config checks: `checkFileConf` lines 44-56, `parseFileConf` lines 73-83 -/

/-- Outcome of an `os.Stat` call: success with a size, an error for which
`os.IsNotExist` holds, or any other error (e.g. permission denied) — in both
error cases Go's `os.Stat` returns a nil `FileInfo`. -/
inductive StatOutcome where
  | found (size : Nat)
  | errNotExist
  | errOther
deriving DecidableEq

/-- How the function terminates. -/
inductive ConfCheckResult where
  | exitFileMissing
  | exitFileEmpty
  | nilDereference
  | passed
deriving DecidableEq, Repr

/-- `checkFileConf`: `info, err := os.Stat(fileConf)`; exits when
`os.IsNotExist(err)`; otherwise evaluates `info.Size()` — which, when `err`
was some other failure, dereferences the nil `info` (a runtime panic). -/
def checkFileConfRun (st : StatOutcome) : ConfCheckResult :=
  match st with
  | .errNotExist => .exitFileMissing
  | .errOther => .nilDereference
  | .found s => if s = 0 then .exitFileEmpty else .passed

/-- The identical `os.Stat`/`IsNotExist`/`info.Size()` sequence applied to
`conf.GoogleCloud.PathJSONKey` at the end of `parseFileConf`. -/
def parseFileConfKeyCheck (st : StatOutcome) : ConfCheckResult :=
  match st with
  | .errNotExist => .exitFileMissing
  | .errOther => .nilDereference
  | .found s => if s = 0 then .exitFileEmpty else .passed

/-- A clean process termination via `os.Exit(1)` (as opposed to a panic). -/
def isCleanExit : ConfCheckResult → Bool
  | .exitFileMissing => true
  | .exitFileEmpty => true
  | _ => false

/-! ## Worker error handling: C4, C5, C6 -/

/-- C4: for every file whose transfer fails — during `io.Copy` or during
`wc.Close()` — the worker increments the shared failure counter exactly once
for that file (under the mutex), increments no success counter, cancels the
timeout context, closes the local file handle (as many closes as opens), does
not abort, and continues: in any surrounding list of files the remaining files
still contribute their tallies, and the failed file adds exactly one error. -/
theorem c4_transfer_failure (f : FileFate)
    (h : f = FileFate.copyFail ∨ f = FileFate.closeFail) :
    (processOne f).dError = 1 ∧ (processOne f).dOK = 0 ∧
    (processOne f).cancelled = 1 ∧ (processOne f).closedFile = 1 ∧
    (processOne f).closedFile = (processOne f).opened ∧
    (processOne f).aborted = false ∧
    ∀ pre post : List FileFate,
      (workerTally (pre ++ f :: post)).2
          = (workerTally pre).2 + 1 + (workerTally post).2 ∧
        (workerTally (pre ++ f :: post)).1
          = (workerTally pre).1 + (workerTally post).1 := by
  rcases h with h | h <;> subst h <;>
    refine ⟨rfl, rfl, rfl, rfl, rfl, rfl, fun pre post => ?_⟩ <;>
    simp [workerTally, processOne] <;> omega

theorem c4_transfer_failure_witness :
    (processOne FileFate.copyFail).dError = 1 ∧
      (workerTally ([FileFate.ok] ++ FileFate.copyFail :: [FileFate.ok])).2
        = (workerTally [FileFate.ok]).2 + 1 + (workerTally [FileFate.ok]).2 :=
  ⟨(c4_transfer_failure FileFate.copyFail (Or.inl rfl)).1,
    ((c4_transfer_failure FileFate.copyFail (Or.inl rfl)).2.2.2.2.2.2
      [FileFate.ok] [FileFate.ok]).1⟩

/-- C5: a file that is missing at upload time (`os.Stat` re-check) or whose
`os.Open` fails increments neither counter, does not abort the worker, and in
the missing case prints exactly one warning line; the worker continues, the
surrounding files contributing their tallies unchanged. -/
theorem c5_skip_no_count (f : FileFate)
    (h : f = FileFate.missing ∨ f = FileFate.openFail) :
    (processOne f).dOK = 0 ∧ (processOne f).dError = 0 ∧
    (processOne f).aborted = false ∧
    (f = FileFate.missing → (processOne f).stdoutLines = 1) ∧
    ∀ pre post : List FileFate,
      workerTally (pre ++ f :: post)
        = ((workerTally pre).1 + (workerTally post).1,
           (workerTally pre).2 + (workerTally post).2) := by
  rcases h with h | h <;> subst h
  · exact ⟨rfl, rfl, rfl, fun _ => rfl, fun pre post => by
      simp [workerTally, processOne]⟩
  · refine ⟨rfl, rfl, rfl, ?_, fun pre post => by
      simp [workerTally, processOne]⟩
    intro hc
    exact absurd hc (by decide)

theorem c5_skip_no_count_witness :
    (processOne FileFate.missing).dOK = 0 ∧
      (processOne FileFate.missing).stdoutLines = 1 ∧
      workerTally ([FileFate.ok] ++ FileFate.missing :: [FileFate.ok])
        = ((workerTally [FileFate.ok]).1 + (workerTally [FileFate.ok]).1,
           (workerTally [FileFate.ok]).2 + (workerTally [FileFate.ok]).2) :=
  ⟨(c5_skip_no_count FileFate.missing (Or.inl rfl)).1,
    (c5_skip_no_count FileFate.missing (Or.inl rfl)).2.2.2.1 rfl,
    (c5_skip_no_count FileFate.missing (Or.inl rfl)).2.2.2.2
      [FileFate.ok] [FileFate.ok]⟩

/-- C6 fails on the code: the error paths print nothing.  On open failure,
`io.Copy` failure and `wc.Close` failure the code calls `fmt.Errorf`, which
only CONSTRUCTS an error value; the value is discarded, so zero lines reach
standard output for those files — only the success and missing-file paths
print (one line each). -/
theorem c6_error_paths_print_nothing :
    (processOne FileFate.openFail).stdoutLines = 0 ∧
    (processOne FileFate.copyFail).stdoutLines = 0 ∧
    (processOne FileFate.closeFail).stdoutLines = 0 ∧
    (processOne FileFate.ok).stdoutLines = 1 ∧
    (processOne FileFate.missing).stdoutLines = 1 := by
  decide

/-! ## Per-file timeout: C7 -/

/-- C7 as stated is false: with the run starting at time 0 and a file whose
transfer begins at time 100, the context deadline is 150 = file start + 50,
not run start + 50 = 50. -/
theorem c7_counterexample :
    fileTransferDeadline 0 100 = some 150 ∧
    ¬ fileTransferDeadline 0 100 = some (0 + 50) := by
  decide

/-- C7 amended: each file transfer is bounded by a 50-second timeout whose
deadline is that file's own transfer start plus 50s — `context.WithTimeout`
computes the deadline from the clock at call time, and the parent chain ends
at `context.Background()`, which contributes no deadline, so the run start
never enters; the deadline is independent of the run start, expiry surfaces
as an `io.Copy` error counted as one transfer failure, and the worker is not
aborted (sibling files each get their own fresh context). -/
theorem c7_amended (runStart fileStart : Nat) :
    fileTransferDeadline runStart fileStart = some (fileStart + 50) ∧
    (∀ otherRunStart : Nat,
      fileTransferDeadline runStart fileStart
        = fileTransferDeadline otherRunStart fileStart) ∧
    (processOne FileFate.copyFail).dError = 1 ∧
    (processOne FileFate.copyFail).aborted = false :=
  ⟨rfl, fun _ => rfl, rfl, rfl⟩

/-! ## Lock-protected counters: C8 -/

theorem foldl_applyEv (L : List CounterEv) :
    ∀ st : Nat × Nat,
      L.foldl applyEv st
        = (st.1 + L.count CounterEv.incOK, st.2 + L.count CounterEv.incErr) := by
  induction L with
  | nil => intro st; simp
  | cons e t ih =>
    intro st
    cases e <;> simp [applyEv, ih, List.count_cons] <;> omega

theorem count_flatten_sum (a : CounterEv) :
    ∀ ws : List (List CounterEv),
      ws.flatten.count a = (ws.map (fun w => w.count a)).sum := by
  intro ws
  induction ws with
  | nil => simp
  | cons w t ih => simp [List.count_append, ih]

/-- C8: each increment of `totalFilesOK`/`totalFilesError` happens atomically
under the single mutex, so a complete concurrent execution of the `W` workers
is some interleaving — a permutation — of all their increment events.  For any
such interleaving no update is lost: the final counters equal, componentwise,
the sums of the workers' local tallies, and in particular the final
`successCount + failureCount` equals the grand total of all local tallies. -/
theorem c8_no_lost_updates (ws : List (List CounterEv)) (L : List CounterEv)
    (h : L.Perm ws.flatten) :
    (foldEvents L).1 = ((ws.map localTally).map Prod.fst).sum ∧
    (foldEvents L).2 = ((ws.map localTally).map Prod.snd).sum ∧
    (foldEvents L).1 + (foldEvents L).2
      = ((ws.map localTally).map Prod.fst).sum
        + ((ws.map localTally).map Prod.snd).sum := by
  have h1 : foldEvents L
      = (L.count CounterEv.incOK, L.count CounterEv.incErr) := by
    simpa using foldl_applyEv L (0, 0)
  have hOK : L.count CounterEv.incOK
      = (ws.map (fun w => w.count CounterEv.incOK)).sum := by
    rw [h.count_eq, count_flatten_sum]
  have hErr : L.count CounterEv.incErr
      = (ws.map (fun w => w.count CounterEv.incErr)).sum := by
    rw [h.count_eq, count_flatten_sum]
  have hfst : (ws.map localTally).map Prod.fst
      = ws.map (fun w => w.count CounterEv.incOK) := by
    simp [localTally, List.map_map, Function.comp]
  have hsnd : (ws.map localTally).map Prod.snd
      = ws.map (fun w => w.count CounterEv.incErr) := by
    simp [localTally, List.map_map, Function.comp]
  rw [h1, hfst, hsnd]
  exact ⟨hOK, hErr, by rw [hOK, hErr]⟩

theorem c8_no_lost_updates_witness :
    (foldEvents [CounterEv.incErr, CounterEv.incOK]).1
        = (([[CounterEv.incOK], [CounterEv.incErr]].map localTally).map
            Prod.fst).sum ∧
      (foldEvents [CounterEv.incErr, CounterEv.incOK]).2
        = (([[CounterEv.incOK], [CounterEv.incErr]].map localTally).map
            Prod.snd).sum ∧
      (foldEvents [CounterEv.incErr, CounterEv.incOK]).1
          + (foldEvents [CounterEv.incErr, CounterEv.incOK]).2
        = (([[CounterEv.incOK], [CounterEv.incErr]].map localTally).map
            Prod.fst).sum
          + (([[CounterEv.incOK], [CounterEv.incErr]].map localTally).map
            Prod.snd).sum :=
  c8_no_lost_updates [[CounterEv.incOK], [CounterEv.incErr]]
    [CounterEv.incErr, CounterEv.incOK] (by decide)

/-! ## Startup: C9 -/

/-- C9: invoked with zero command-line arguments (`os.Args` holds only the
program name, so `len(os.Args) == 1`), `main` calls `usage`, which prints the
usage line and exits with code 1 before `flag.StringVar`, `flag.Parse` or
`checkFileConf` run; no configuration path is ever stat'ed, even though the
`-config` flag's default — which `parseConfigFlag` would yield for an empty
flag list — is `conf.yaml`. -/
theorem c9_usage_exit (args : List String) (h : args.length = 1) :
    mainStartup args = ⟨true, some 1, none⟩ ∧
    (mainStartup args).configPathStat = none ∧
    parseConfigFlag [] = defaultConfigPath := by
  unfold mainStartup
  rw [if_pos h]
  exact ⟨rfl, rfl, rfl⟩

theorem c9_usage_exit_witness :
    mainStartup ["gcs-backup"] = ⟨true, some 1, none⟩ ∧
      (mainStartup ["gcs-backup"]).configPathStat = none ∧
      parseConfigFlag [] = defaultConfigPath :=
  c9_usage_exit ["gcs-backup"] rfl

/-! ## Nil FileInfo on non-ENOENT stat errors: C10 -/

/-- C10 as stated is false: when `os.Stat` fails for a reason other than
non-existence (e.g. permission denied), `os.IsNotExist(err)` is false, the
function does not exit, and `info.Size()` IS evaluated on the nil `FileInfo`
— a nil dereference panic, not a clean termination — in `checkFileConf` and
in `parseFileConf` alike. -/
theorem c10_counterexample :
    checkFileConfRun StatOutcome.errOther = ConfCheckResult.nilDereference ∧
    isCleanExit (checkFileConfRun StatOutcome.errOther) = false ∧
    parseFileConfKeyCheck StatOutcome.errOther
      = ConfCheckResult.nilDereference ∧
    isCleanExit (parseFileConfKeyCheck StatOutcome.errOther) = false := by
  decide

/-- C10 amended: `info.Size()` is evaluated whenever `os.IsNotExist(err)` is
false — including when `Stat` failed for another reason and `info` is nil, in
which case both `checkFileConf` and `parseFileConf` hit a nil dereference
rather than terminating cleanly; only the non-existence failure exits
cleanly before touching `info`. -/
theorem c10_amended (st : StatOutcome) :
    (checkFileConfRun st = ConfCheckResult.nilDereference
      ↔ st = StatOutcome.errOther) ∧
    (parseFileConfKeyCheck st = ConfCheckResult.nilDereference
      ↔ st = StatOutcome.errOther) ∧
    checkFileConfRun StatOutcome.errNotExist = ConfCheckResult.exitFileMissing ∧
    isCleanExit (checkFileConfRun StatOutcome.errNotExist) = true := by
  cases st with
  | found s =>
    by_cases hs : s = 0 <;>
      simp [checkFileConfRun, parseFileConfKeyCheck, isCleanExit, hs]
  | errNotExist => simp [checkFileConfRun, parseFileConfKeyCheck, isCleanExit]
  | errOther => simp [checkFileConfRun, parseFileConfKeyCheck, isCleanExit]

theorem c10_amended_witness :
    checkFileConfRun StatOutcome.errOther = ConfCheckResult.nilDereference ∧
      parseFileConfKeyCheck StatOutcome.errOther
        = ConfCheckResult.nilDereference :=
  ⟨(c10_amended StatOutcome.errOther).1.mpr rfl,
    (c10_amended StatOutcome.errOther).2.1.mpr rfl⟩

/-! ## Partition lemmas for C1 and C2 -/

theorem goRoutines_pos (M : Nat) : 1 ≤ goRoutines M := by
  unfold goRoutines roundDiv processFilesForGoRoutine
  split <;> omega

theorem goRoutines_eq_max (M : Nat) :
    goRoutines M = max 1 (roundDiv M processFilesForGoRoutine) := by
  unfold goRoutines roundDiv processFilesForGoRoutine
  split <;> omega

theorem goRoutines_mul_le (M : Nat) (h : 2 ≤ goRoutines M) :
    20 * goRoutines M ≤ M + 10 := by
  by_cases hc : roundDiv M processFilesForGoRoutine = 0
  · unfold goRoutines at h
    rw [if_pos hc] at h
    omega
  · unfold goRoutines at *
    rw [if_neg hc] at *
    unfold roundDiv processFilesForGoRoutine at *
    omega

theorem buildUnits_zero (W M i : Nat) (p : Int) : buildUnits W M 0 i p = [] := rfl

theorem buildUnits_succ (W M r i : Nat) (p : Int) :
    buildUnits W M (r + 1) i p
      = partitionStep W M i p
          :: buildUnits W M r (i + 1) (partitionStep W M i p).2 := rfl

theorem partitionStep_single (W M i : Nat) (p : Int) (hW : W = 1) :
    partitionStep W M i p = (0, (M : Int) - 1) := by
  unfold partitionStep
  rw [if_pos hW]

theorem partitionStep_first (W M : Nat) (p : Int) (hW : W ≠ 1) :
    partitionStep W M 0 p = (0, 19) := by
  unfold partitionStep processFilesForGoRoutine
  rw [if_neg hW, if_pos rfl]
  norm_num

theorem partitionStep_last (W M i : Nat) (p : Int) (hW : W ≠ 1) (hi : i ≠ 0)
    (hlast : i = W - 1) :
    partitionStep W M i p = (p + 1, (M : Int) - 1) := by
  unfold partitionStep
  rw [if_neg hW, if_neg hi, if_pos hlast]

theorem partitionStep_mid (W M i : Nat) (p : Int) (hW : W ≠ 1) (hi : i ≠ 0)
    (hlast : i ≠ W - 1) :
    partitionStep W M i p = (p + 1, p + 20) := by
  unfold partitionStep processFilesForGoRoutine
  rw [if_neg hW, if_neg hi, if_neg hlast]
  norm_num

/-- Closed form of the range assigned to worker `j` when at least two workers
are dispatched: all but the last take 20 files, the last absorbs the
remainder. -/
def unitSpec (W M : Nat) (j : Nat) : Int × Int :=
  (20 * (j : Int),
   if j = W - 1 then (M : Int) - 1 else 20 * ((j : Int) + 1) - 1)

theorem buildUnits_eq (W M : Nat) (hW : 2 ≤ W) :
    ∀ rem i, 1 ≤ i → i + rem = W →
      buildUnits W M rem i (20 * (i : Int) - 1)
        = (List.range' i rem).map (unitSpec W M) := by
  intro rem
  induction rem with
  | zero => intro i _ _; rfl
  | succ r ih =>
    intro i hi hiw
    rw [buildUnits_succ]
    by_cases hlast : i = W - 1
    · have hr : r = 0 := by omega
      subst hr
      rw [partitionStep_last W M i _ (by omega) (by omega) hlast,
        buildUnits_zero]
      show _ = [unitSpec W M i]
      unfold unitSpec
      rw [if_pos hlast]
      norm_num
    · rw [partitionStep_mid W M i _ (by omega) (by omega) hlast]
      have hstep : ((20 * (i : Int) - 1 + 1, 20 * (i : Int) - 1 + 20) : Int × Int).2
          = 20 * ((i + 1 : Nat) : Int) - 1 := by
        push_cast
        ring
      rw [hstep, ih (i + 1) (by omega) (by omega)]
      show _ = (unitSpec W M i) :: _
      unfold unitSpec
      rw [if_neg hlast]
      norm_num
      ring

theorem workUnits_eq_one (M : Nat) (h : goRoutines M = 1) :
    workUnits M = [(0, (M : Int) - 1)] := by
  unfold workUnits
  rw [h, buildUnits_succ, partitionStep_single 1 M 0 0 rfl, buildUnits_zero]

theorem workUnits_eq_ge2 (M : Nat) (h : 2 ≤ goRoutines M) :
    workUnits M
      = (List.range' 0 (goRoutines M)).map (unitSpec (goRoutines M) M) := by
  obtain ⟨k, hk⟩ : ∃ k, goRoutines M = k + 2 := ⟨goRoutines M - 2, by omega⟩
  unfold workUnits
  rw [hk, buildUnits_succ, partitionStep_first (k + 2) M 0 (by omega)]
  have h19 : ((0 : Int), (19 : Int)).2 = 20 * ((1 : Nat) : Int) - 1 := by
    norm_num
  rw [h19, buildUnits_eq (k + 2) M (by omega) (k + 1) 1 (by omega) (by omega)]
  show _ = unitSpec (k + 2) M 0 :: _
  unfold unitSpec
  rw [if_neg (by omega)]
  norm_num

theorem covered_nil : covered [] = [] := rfl

theorem covered_cons (u : Int × Int) (us : List (Int × Int)) :
    covered (u :: us) = rangeList u.1 u.2 ++ covered us := rfl

theorem rangeList_append (a b c : Int) (h1 : a ≤ b) (h2 : b ≤ c + 1) :
    rangeList a (b - 1) ++ rangeList b c = rangeList a c := by
  unfold rangeList
  have hm : (b - 1 + 1 - a).toNat = (b - a).toNat := by omega
  have hmn : (c + 1 - a).toNat = (b - a).toNat + (c + 1 - b).toNat := by omega
  rw [hm, hmn, List.range_add, List.map_append, List.map_map]
  congr 1
  have hcast : ((b - a).toNat : Int) = b - a := by omega
  apply List.map_congr_left
  intro k _
  simp only [Function.comp_apply]
  push_cast [hcast]
  ring

theorem rangeList_zero_ofNat (M : Nat) :
    rangeList 0 ((M : Int) - 1) = (List.range M).map (fun k : Nat => (k : Int)) := by
  unfold rangeList
  have hM : ((M : Int) - 1 + 1 - 0).toNat = M := by omega
  rw [hM]
  apply List.map_congr_left
  intro k _
  omega

theorem covered_units (W M : Nat) (hub : 20 * W ≤ M + 10) :
    ∀ rem i, i + rem = W → 1 ≤ rem →
      covered ((List.range' i rem).map (unitSpec W M))
        = rangeList (20 * (i : Int)) ((M : Int) - 1) := by
  intro rem
  induction rem with
  | zero => intro i _ h1; omega
  | succ r ih =>
    intro i hiw _
    by_cases hr : r = 0
    · subst hr
      have hi : i = W - 1 := by omega
      show covered [unitSpec W M i] = _
      rw [covered_cons, covered_nil, List.append_nil]
      unfold unitSpec
      rw [if_pos hi]
    · have hi : i ≠ W - 1 := by omega
      show covered (unitSpec W M i
          :: (List.range' (i + 1) r).map (unitSpec W M)) = _
      rw [covered_cons, ih (i + 1) (by omega) (by omega)]
      unfold unitSpec
      rw [if_neg hi]
      have hb : ((unitSpec W M i).1, (20 : Int) * ((i : Int) + 1) - 1).2
          = 20 * ((i : Int) + 1) - 1 := rfl
      have hcast : ((i + 1 : Nat) : Int) = (i : Int) + 1 := by push_cast; ring
      rw [hcast]
      exact rangeList_append (20 * (i : Int)) (20 * ((i : Int) + 1))
        ((M : Int) - 1) (by omega) (by omega)

theorem covered_workUnits (M : Nat) :
    covered (workUnits M) = (List.range M).map (fun k : Nat => (k : Int)) := by
  by_cases h : 2 ≤ goRoutines M
  · rw [workUnits_eq_ge2 M h]
    have h0 := covered_units (goRoutines M) M (goRoutines_mul_le M h)
      (goRoutines M) 0 (by omega) (by omega)
    rw [show ((20 : Int) * ((0 : Nat) : Int)) = 0 by norm_num] at h0
    rw [h0, rangeList_zero_ofNat]
  · have h1 : goRoutines M = 1 := by have := goRoutines_pos M; omega
    rw [workUnits_eq_one M h1, covered_cons, covered_nil, List.append_nil]
    exact rangeList_zero_ofNat M

theorem unitSpec_fst (W M j : Nat) : (unitSpec W M j).1 = 20 * (j : Int) := rfl

theorem unitSpec_snd_mid (W M j : Nat) (h : j ≠ W - 1) :
    (unitSpec W M j).2 = 20 * ((j : Int) + 1) - 1 := by
  unfold unitSpec
  rw [if_neg h]

theorem unitSpec_snd_last (W M j : Nat) (h : j = W - 1) :
    (unitSpec W M j).2 = (M : Int) - 1 := by
  unfold unitSpec
  rw [if_pos h]

theorem workUnits_length (M : Nat) : (workUnits M).length = goRoutines M := by
  by_cases h : 2 ≤ goRoutines M
  · rw [workUnits_eq_ge2 M h, List.length_map]
    simp
  · have h1 : goRoutines M = 1 := by have := goRoutines_pos M; omega
    rw [workUnits_eq_one M h1, h1]
    rfl

theorem getLast_units (W M : Nat) :
    ∀ rem i, 1 ≤ rem → i + rem = W →
      ((List.range' i rem).map (unitSpec W M)).getLast?
        = some (unitSpec W M (W - 1)) := by
  intro rem
  induction rem with
  | zero => intro i h _; omega
  | succ r ih =>
    intro i _ hiw
    by_cases hr : r = 0
    · subst hr
      have hi : i = W - 1 := by omega
      show ([unitSpec W M i]).getLast? = _
      rw [hi]
      rfl
    · obtain ⟨r2, rfl⟩ : ∃ r2, r = r2 + 1 := ⟨r - 1, by omega⟩
      show (unitSpec W M i :: unitSpec W M (i + 1)
          :: (List.range' (i + 2) r2).map (unitSpec W M)).getLast? = _
      rw [List.getLast?_cons_cons]
      exact ih (i + 1) (by omega) (by omega)

theorem chain_units (W M : Nat) :
    ∀ rem i, i + rem = W →
      List.Chain' (fun u v : Int × Int => u.2 + 1 = v.1)
        ((List.range' i rem).map (unitSpec W M)) := by
  intro rem
  induction rem with
  | zero => intro i _; exact List.chain'_nil
  | succ r ih =>
    intro i hiw
    by_cases hr : r = 0
    · subst hr
      exact List.chain'_singleton _
    · obtain ⟨r2, rfl⟩ : ∃ r2, r = r2 + 1 := ⟨r - 1, by omega⟩
      show List.Chain' _ (unitSpec W M i :: unitSpec W M (i + 1)
          :: (List.range' (i + 2) r2).map (unitSpec W M))
      rw [List.chain'_cons]
      refine ⟨?_, ih (i + 1) (by omega)⟩
      have hi : i ≠ W - 1 := by omega
      rw [unitSpec_snd_mid W M i hi, unitSpec_fst W M (i + 1)]
      push_cast
      ring

theorem workUnits_head (M : Nat) :
    (workUnits M).head?.map Prod.fst = some 0 := by
  by_cases h : 2 ≤ goRoutines M
  · obtain ⟨k, hk⟩ : ∃ k, goRoutines M = k + 2 := ⟨goRoutines M - 2, by omega⟩
    rw [workUnits_eq_ge2 M h, hk]
    show (some (unitSpec (k + 2) M 0)).map Prod.fst = _
    rw [Option.map_some', unitSpec_fst]
    norm_num
  · have h1 : goRoutines M = 1 := by have := goRoutines_pos M; omega
    rw [workUnits_eq_one M h1]
    rfl

theorem workUnits_getLast (M : Nat) :
    (workUnits M).getLast?.map Prod.snd = some ((M : Int) - 1) := by
  by_cases h : 2 ≤ goRoutines M
  · rw [workUnits_eq_ge2 M h,
      getLast_units (goRoutines M) M (goRoutines M) 0 (by omega) (by omega),
      Option.map_some', unitSpec_snd_last _ _ _ rfl]
  · have h1 : goRoutines M = 1 := by have := goRoutines_pos M; omega
    rw [workUnits_eq_one M h1]
    rfl

theorem workUnits_chain (M : Nat) :
    List.Chain' (fun u v : Int × Int => u.2 + 1 = v.1) (workUnits M) := by
  by_cases h : 2 ≤ goRoutines M
  · rw [workUnits_eq_ge2 M h]
    exact chain_units (goRoutines M) M (goRoutines M) 0 (by omega)
  · have h1 : goRoutines M = 1 := by have := goRoutines_pos M; omega
    rw [workUnits_eq_one M h1]
    exact List.chain'_singleton _

theorem workUnits_pairwise (M : Nat) :
    List.Pairwise (fun u v : Int × Int => u.2 < v.1) (workUnits M) := by
  by_cases h : 2 ≤ goRoutines M
  · rw [workUnits_eq_ge2 M h, List.pairwise_map]
    refine List.Pairwise.imp_of_mem ?_ (List.pairwise_lt_range' 0 (goRoutines M))
    intro a b _ hb hab
    have hbW : b < goRoutines M := by
      have := List.mem_range'_1.mp hb
      omega
    have haW : a ≠ goRoutines M - 1 := by omega
    rw [unitSpec_snd_mid _ _ _ haW, unitSpec_fst]
    omega
  · have h1 : goRoutines M = 1 := by have := goRoutines_pos M; omega
    rw [workUnits_eq_one M h1]
    exact List.pairwise_singleton _ _

/-- C1: for every manifest of length M ≥ 1 with the fixed batch size 20, the
dispatch loop computes `goRoutines = round(M/20)` clamped to a minimum of 1
and assigns that many workers index ranges that start at 0, end at M-1 (the
remainder absorbed into the last range), are gapless (each range's end + 1 is
the next range's start), pairwise disjoint (each range ends strictly before
the next starts), and together cover exactly the indices 0..M-1; in
particular M = 45 yields [0,19],[20,44] and M = 5 yields the single [0,4]. -/
theorem c1_partition (M : Nat) (hM : 1 ≤ M) :
    (workUnits M).length = goRoutines M ∧
    goRoutines M = max 1 (roundDiv M processFilesForGoRoutine) ∧
    (workUnits M).head?.map Prod.fst = some 0 ∧
    (workUnits M).getLast?.map Prod.snd = some ((M : Int) - 1) ∧
    List.Chain' (fun u v : Int × Int => u.2 + 1 = v.1) (workUnits M) ∧
    List.Pairwise (fun u v : Int × Int => u.2 < v.1) (workUnits M) ∧
    covered (workUnits M) = (List.range M).map (fun k : Nat => (k : Int)) ∧
    workUnits 45 = [(0, 19), (20, 44)] ∧
    workUnits 5 = [(0, 4)] :=
  ⟨workUnits_length M, goRoutines_eq_max M, workUnits_head M,
    workUnits_getLast M, workUnits_chain M, workUnits_pairwise M,
    covered_workUnits M, by decide, by decide⟩

theorem c1_partition_witness :
    (workUnits 45).length = goRoutines 45 ∧
      covered (workUnits 45) = (List.range 45).map (fun k : Nat => (k : Int)) ∧
      workUnits 45 = [(0, 19), (20, 44)] ∧
      workUnits 5 = [(0, 4)] :=
  ⟨(c1_partition 45 (by decide)).1,
    (c1_partition 45 (by decide)).2.2.2.2.2.2.1,
    (c1_partition 45 (by decide)).2.2.2.2.2.2.2.1,
    (c1_partition 45 (by decide)).2.2.2.2.2.2.2.2⟩

/-- C2: every manifest index a worker evaluates lies in bounds — the indices
visited by the workers' loops are exactly `covered (workUnits M)`, and each
of them satisfies 0 ≤ n < M, so `filesToCopy[n]` never goes out of range;
for M = 0 the single dispatched worker gets the range (0, -1), its loop body
never runs (zero upload attempts), and the final report shows 0 files to
copy, 0 copied, 0 failed. -/
theorem c2_index_bounds (M : Nat) (σ : Nat → FileFate) :
    (∀ n ∈ covered (workUnits M), 0 ≤ n ∧ n < (M : Int)) ∧
    (M = 0 → covered (workUnits M) = [] ∧ finalReport σ M = (0, 0, 0)) := by
  constructor
  · intro n hn
    rw [covered_workUnits M] at hn
    simp only [List.mem_map, List.mem_range] at hn
    obtain ⟨k, hk, rfl⟩ := hn
    constructor
    · omega
    · exact_mod_cast hk
  · intro h
    subst h
    exact ⟨by decide, rfl⟩

theorem c2_index_bounds_witness :
    (0 ≤ (0 : Int) ∧ (0 : Int) < ((45 : Nat) : Int)) ∧
      covered (workUnits 0) = [] ∧
      finalReport (fun _ => FileFate.ok) 0 = (0, 0, 0) :=
  ⟨(c2_index_bounds 45 (fun _ => FileFate.ok)).1 0 (by decide),
    ((c2_index_bounds 0 (fun _ => FileFate.ok)).2 rfl).1,
    ((c2_index_bounds 0 (fun _ => FileFate.ok)).2 rfl).2⟩

/-! ## Counter invariant: C3 -/

theorem counters_fold_sum (σ : Nat → FileFate) (L : List Nat) :
    ∀ st : Nat × Nat,
      (L.foldl (stepCounters σ) st).1 + (L.foldl (stepCounters σ) st).2
        = st.1 + st.2 + (L.filter (fun n => openable (σ n))).length := by
  induction L with
  | nil => intro st; simp
  | cons n t ih =>
    intro st
    rw [List.foldl_cons, ih, List.filter_cons]
    cases hσ : σ n <;> simp [stepCounters, hσ, processOne, openable] <;> omega

/-- C3: at any point of the run — after any duplicate-free set `L` of
in-range manifest indices has been processed, in any interleaved order — the
shared counters satisfy `totalFilesOK + totalFilesError ≤ M` (each processed
file increments at most one counter, at most once); and when the run is
complete (`L` is a permutation of all indices `0..M-1`), their sum equals
exactly the number of manifest files that were still present and openable at
upload time. -/
theorem c3_counter_invariant (σ : Nat → FileFate) (M : Nat) (L : List Nat)
    (hnd : L.Nodup) (hsub : ∀ n ∈ L, n < M) :
    (runCounters σ L).1 + (runCounters σ L).2 ≤ M ∧
    (L.Perm (List.range M) →
      (runCounters σ L).1 + (runCounters σ L).2
        = ((List.range M).filter (fun n => openable (σ n))).length) := by
  have hsum : (runCounters σ L).1 + (runCounters σ L).2
      = (L.filter (fun n => openable (σ n))).length := by
    simpa using counters_fold_sum σ L (0, 0)
  constructor
  · rw [hsum]
    calc (L.filter (fun n => openable (σ n))).length
        ≤ L.length := List.length_filter_le _ _
      _ ≤ (List.range M).length :=
        (hnd.subperm (fun n hn => List.mem_range.mpr (hsub n hn))).length_le
      _ = M := List.length_range M
  · intro hp
    rw [hsum, (hp.filter (fun n => openable (σ n))).length_eq]

theorem c3_counter_invariant_witness :
    ((runCounters (fun _ => FileFate.ok) [1, 0]).1
        + (runCounters (fun _ => FileFate.ok) [1, 0]).2 ≤ 2) ∧
      (runCounters (fun _ => FileFate.ok) [1, 0]).1
          + (runCounters (fun _ => FileFate.ok) [1, 0]).2
        = ((List.range 2).filter
            (fun n => openable ((fun _ => FileFate.ok) n))).length :=
  ⟨(c3_counter_invariant (fun _ => FileFate.ok) 2 [1, 0] (by decide)
      (by decide)).1,
    (c3_counter_invariant (fun _ => FileFate.ok) 2 [1, 0] (by decide)
      (by decide)).2 (by decide)⟩
